import Mathlib

/-!
Verification of the Lithuanian accent-selection-and-rendering engine
(`src/lib.rs`, with a duplicate copy in `src/main.rs`).

Modelling choices:
* A word is its sequence of Unicode code points, `List Char` (Rust's
  `str::chars()` iterates scalar values, i.e. code points).
* Every non-ASCII code point of the source is written `Char.ofNat 0x....`,
  transcribed from a byte-level dump of the Rust source, so that
  precomposed versus combining forms are exactly those of the source.
* `phf::Map` is a finite map with no duplicate keys; it is modelled as an
  association list queried by `lookup` below.
* A Rust panic (`unwrap()` on a missing key, or the `unreachable!()` arm of
  `make_stressed`) is modelled as `Option.none`: the function aborts and
  returns no value to the caller.
-/

namespace LithuanianPhonology

/-- Association-list lookup, modelling `phf::Map::get`. -/
def lookup : List (Char × List Char) → Char → Option (List Char)
  | [], _ => none
  | (k, v) :: rest, c => if c = k then some v else lookup rest c

/-- `STRESS_TYPE_2` of `src/lib.rs` (lines 63–76): broken/circumflex tone.
Each entry is transcribed code point by code point from the source bytes:
`ą ė ę į ų ū` map to themselves followed by U+0303 COMBINING TILDE, as do
the sonorants `l m r`; `e o y` map to the precomposed characters
U+1EBD, U+00F5, U+1EF9. -/
def STRESS_TYPE_2 : List (Char × List Char) :=
  [(Char.ofNat 0x105, [Char.ofNat 0x105, Char.ofNat 0x303]),
   ('e', [Char.ofNat 0x1EBD]),
   (Char.ofNat 0x117, [Char.ofNat 0x117, Char.ofNat 0x303]),
   (Char.ofNat 0x119, [Char.ofNat 0x119, Char.ofNat 0x303]),
   (Char.ofNat 0x12F, [Char.ofNat 0x12F, Char.ofNat 0x303]),
   ('l', ['l', Char.ofNat 0x303]),
   ('m', ['m', Char.ofNat 0x303]),
   ('o', [Char.ofNat 0xF5]),
   ('r', ['r', Char.ofNat 0x303]),
   (Char.ofNat 0x173, [Char.ofNat 0x173, Char.ofNat 0x303]),
   (Char.ofNat 0x16B, [Char.ofNat 0x16B, Char.ofNat 0x303]),
   ('y', [Char.ofNat 0x1EF9])]

/-- `STRESS_TYPE_0` of `src/lib.rs` (lines 78–82): short/falling tone.
`a i` map to precomposed U+00E0, U+00EC; `u` maps to `u` followed by
U+0300 COMBINING GRAVE. -/
def STRESS_TYPE_0 : List (Char × List Char) :=
  [('a', [Char.ofNat 0xE0]),
   ('i', [Char.ofNat 0xEC]),
   ('u', ['u', Char.ofNat 0x300])]

/-- `STRESS_TYPE_1` of `src/lib.rs` (lines 84–91): acute/rising tone.
Each value is a base code point followed by U+0301 COMBINING ACUTE; the
base for `e` is `ę` (U+0119), and the base for `ė` (U+0117) is itself. -/
def STRESS_TYPE_1 : List (Char × List Char) :=
  [(Char.ofNat 0x16B, [Char.ofNat 0x16B, Char.ofNat 0x301]),
   ('e', [Char.ofNat 0x119, Char.ofNat 0x301]),
   (Char.ofNat 0x117, [Char.ofNat 0x117, Char.ofNat 0x301]),
   (Char.ofNat 0x12F, [Char.ofNat 0x12F, Char.ofNat 0x301]),
   (Char.ofNat 0x105, [Char.ofNat 0x105, Char.ofNat 0x301]),
   (Char.ofNat 0x173, [Char.ofNat 0x173, Char.ofNat 0x301])]

/-- `make_stressed` of `src/lib.rs` (lines 121–129).  `stress_type` is the
Rust `u8` value.  The `_ => unreachable!()` arm and the final
`map.get(&c).unwrap()` both abort the process on failure; both aborts are
modelled as `none`. -/
def make_stressed (c : Char) (stress_type : Nat) : Option (List Char) :=
  match stress_type with
  | 0 => lookup STRESS_TYPE_0 c
  | 1 => lookup STRESS_TYPE_1 c
  | 2 => lookup STRESS_TYPE_2 c
  | _ => none

/-- The table `make_stressed` selects for a stress type in {0,1,2}
(helper for stating key-membership properties). -/
def table_for (stress_type : Nat) : List (Char × List Char) :=
  match stress_type with
  | 0 => STRESS_TYPE_0
  | 1 => STRESS_TYPE_1
  | 2 => STRESS_TYPE_2
  | _ => []

/-- The loop body of `create_stresed_word` (lines 51–61 of `src/lib.rs`):
walks the remaining characters, `i` being the enumeration index of the
head.  At `i = stressed_letter_index` the accented form replaces the
character (aborting if `make_stressed` aborts); everywhere else the
character is pushed unchanged. -/
def create_stresed_word_go (stress_type stressed_letter_index : Nat) :
    Nat → List Char → Option (List Char)
  | _, [] => some []
  | i, c :: rest =>
    if i = stressed_letter_index then
      (make_stressed c stress_type).bind fun s =>
        (create_stresed_word_go stress_type stressed_letter_index (i + 1) rest).map
          fun r => s ++ r
    else
      (create_stresed_word_go stress_type stressed_letter_index (i + 1) rest).map
        fun r => c :: r

/-- `create_stresed_word` of `src/lib.rs` (lines 51–61): iterates
`word.chars().enumerate()` starting from index 0. -/
def create_stresed_word (word : List Char) (stress_type stressed_letter_index : Nat) :
    Option (List Char) :=
  create_stresed_word_go stress_type stressed_letter_index 0 word

/-- Association-list lookup over string keys, modelling
`phf::Map<&str, &str>::get`. -/
def lookupS : List (String × String) → String → Option String
  | [], _ => none
  | (k, v) :: rest, s => if s = k then some v else lookupS rest s

/-- `CASE_NAMES` of `src/lib.rs` (lines 93–101).  The two non-ASCII code
points of the values are written as escapes: U+012E `Į`, U+0160 `Š`. -/
def CASE_NAMES : List (String × String) :=
  [("nominative", "Vardininkas"),
   ("genitive", "Kilmininkas"),
   ("dative", "Naudininkas"),
   ("accusative", "Galininkas"),
   ("instrumental", "Įnagininkas"),
   ("locative", "Vietininkas"),
   ("vocative", "Šauksmininkas")]

/-- Per-character lowercasing of ASCII `A`–`Z`; other characters are kept. -/
def char_to_lower (c : Char) : Char :=
  if 'A' ≤ c ∧ c ≤ 'Z' then Char.ofNat (c.toNat + 32) else c

/-- Models Rust's `str::to_lowercase` as applied inside `get_case_name`.
Rust performs full Unicode lowercasing, but for equality against the seven
pure-ASCII keys of `CASE_NAMES` per-character ASCII lowercasing is
extensionally adequate: the only Unicode code point whose full lowercase
is a plain ASCII letter is U+212A KELVIN SIGN (lowercase `k`), and no key
contains `k`; the only multi-character lowercase expansion (U+0130) emits
the non-key character U+0307.  So for every input the lookup result under
this model equals the lookup result under full Unicode lowercasing. -/
def to_lowercase (s : String) : String :=
  ⟨s.data.map char_to_lower⟩

/-- `get_case_name` of `src/lib.rs` (lines 114–119). -/
def get_case_name (case_name : String) : String :=
  match lookupS CASE_NAMES (to_lowercase case_name) with
  | some val => val
  | none => "UNKNOWN"

/-- A record of the analyzer's `decoded_options` as extracted by the loop
of `get_accentuation` (lines 33–45 of `src/lib.rs`). -/
structure StressOption where
  grammatical_case : String
  stress_type : Nat
  stressed_letter_index : Nat
  deriving DecidableEq, Repr

/-- Possible outcomes of the selection-and-rendering loop:
a returned word, a returned error value (`Err(msg)`), or a panic. -/
inductive RenderOutcome where
  | ok : List Char → RenderOutcome
  | error : String → RenderOutcome
  | panicked : RenderOutcome
  deriving DecidableEq, Repr

/-- Rendering one selected option: the `return Ok(create_stresed_word(..))`
of the loop body, with a panic inside `create_stresed_word` propagated. -/
def render_option (word : List Char) (o : StressOption) : RenderOutcome :=
  match create_stresed_word word o.stress_type o.stressed_letter_index with
  | some w => RenderOutcome.ok w
  | none => RenderOutcome.panicked

/-- The `for i in version { .. }` loop of `get_accentuation`
(lines 33–47 of `src/lib.rs`): scan the options in order, return the
rendering of the first one whose `grammatical_case` equals the requested
case, and fall through to `Err("Unable to find correct case")`. -/
def get_accentuation_loop (word : List Char) (target_case : String) :
    List StressOption → RenderOutcome
  | [] => RenderOutcome.error "Unable to find correct case"
  | o :: rest =>
    if o.grammatical_case = target_case then
      render_option word o
    else
      get_accentuation_loop word target_case rest

/-- Character-wise test that `s` is a letter-casing variant of the
all-lowercase ASCII word `t`: same length, and each character of `s`
lowercases (ASCII) to the corresponding character of `t`. -/
def casing_chars : List Char → List Char → Bool
  | [], [] => true
  | c :: cs, d :: ds => (char_to_lower c == d) && casing_chars cs ds
  | _, _ => false

/-- `s` is a letter-casing variant of the all-lowercase ASCII word `t`. -/
def is_casing_variant (s t : String) : Bool :=
  casing_chars s.data t.data

/-- The code points of the word `"žodį"` (U+017E, o, d, U+012F). -/
def zodis : List Char :=
  String.data "žodį"

/-!
The renderer of `src/main.rs` (lines 45–95): a byte-for-byte duplicate of
the definitions in `src/lib.rs`, embedded independently so that the
equivalence of the two copies is a theorem, not an assumption.
-/

namespace Main

/-- `STRESS_TYPE_2` of `src/main.rs` (lines 57–70). -/
def STRESS_TYPE_2 : List (Char × List Char) :=
  [(Char.ofNat 0x105, [Char.ofNat 0x105, Char.ofNat 0x303]),
   ('e', [Char.ofNat 0x1EBD]),
   (Char.ofNat 0x117, [Char.ofNat 0x117, Char.ofNat 0x303]),
   (Char.ofNat 0x119, [Char.ofNat 0x119, Char.ofNat 0x303]),
   (Char.ofNat 0x12F, [Char.ofNat 0x12F, Char.ofNat 0x303]),
   ('l', ['l', Char.ofNat 0x303]),
   ('m', ['m', Char.ofNat 0x303]),
   ('o', [Char.ofNat 0xF5]),
   ('r', ['r', Char.ofNat 0x303]),
   (Char.ofNat 0x173, [Char.ofNat 0x173, Char.ofNat 0x303]),
   (Char.ofNat 0x16B, [Char.ofNat 0x16B, Char.ofNat 0x303]),
   ('y', [Char.ofNat 0x1EF9])]

/-- `STRESS_TYPE_0` of `src/main.rs` (lines 72–76). -/
def STRESS_TYPE_0 : List (Char × List Char) :=
  [('a', [Char.ofNat 0xE0]),
   ('i', [Char.ofNat 0xEC]),
   ('u', ['u', Char.ofNat 0x300])]

/-- `STRESS_TYPE_1` of `src/main.rs` (lines 78–85). -/
def STRESS_TYPE_1 : List (Char × List Char) :=
  [(Char.ofNat 0x16B, [Char.ofNat 0x16B, Char.ofNat 0x301]),
   ('e', [Char.ofNat 0x119, Char.ofNat 0x301]),
   (Char.ofNat 0x117, [Char.ofNat 0x117, Char.ofNat 0x301]),
   (Char.ofNat 0x12F, [Char.ofNat 0x12F, Char.ofNat 0x301]),
   (Char.ofNat 0x105, [Char.ofNat 0x105, Char.ofNat 0x301]),
   (Char.ofNat 0x173, [Char.ofNat 0x173, Char.ofNat 0x301])]

/-- `make_stressed` of `src/main.rs` (lines 87–95). -/
def make_stressed (c : Char) (stress_type : Nat) : Option (List Char) :=
  match stress_type with
  | 0 => lookup STRESS_TYPE_0 c
  | 1 => lookup STRESS_TYPE_1 c
  | 2 => lookup STRESS_TYPE_2 c
  | _ => none

/-- Loop body of `create_stresed_word` of `src/main.rs` (lines 45–55). -/
def create_stresed_word_go (stress_type stressed_letter_index : Nat) :
    Nat → List Char → Option (List Char)
  | _, [] => some []
  | i, c :: rest =>
    if i = stressed_letter_index then
      (make_stressed c stress_type).bind fun s =>
        (create_stresed_word_go stress_type stressed_letter_index (i + 1) rest).map
          fun r => s ++ r
    else
      (create_stresed_word_go stress_type stressed_letter_index (i + 1) rest).map
        fun r => c :: r

/-- `create_stresed_word` of `src/main.rs` (lines 45–55). -/
def create_stresed_word (word : List Char) (stress_type stressed_letter_index : Nat) :
    Option (List Char) :=
  create_stresed_word_go stress_type stressed_letter_index 0 word

end Main

/-! ### Helper lemmas -/

theorem lookup_isSome_iff (tbl : List (Char × List Char)) (c : Char) :
    (lookup tbl c).isSome = true ↔ c ∈ tbl.map Prod.fst := by
  induction tbl with
  | nil => simp [lookup]
  | cons kv rest ih =>
    obtain ⟨k, v⟩ := kv
    by_cases h : c = k <;> simp [lookup, h, ih]

theorem lookup_eq_none_iff (tbl : List (Char × List Char)) (c : Char) :
    lookup tbl c = none ↔ c ∉ tbl.map Prod.fst := by
  rw [← lookup_isSome_iff]
  cases lookup tbl c <;> simp

theorem make_stressed_eq_lookup (c : Char) (st : Nat) (hst : st < 3) :
    make_stressed c st = lookup (table_for st) c := by
  interval_cases st <;> rfl

/-- Once the enumeration index has passed the stressed index, the loop
copies the rest of the word verbatim. -/
theorem csw_go_past (st idx : Nat) (w : List Char) :
    ∀ i, idx < i → create_stresed_word_go st idx i w = some w := by
  induction w with
  | nil => intro i _; rfl
  | cons c rest ih =>
    intro i h
    have hne : i ≠ idx := by omega
    simp [create_stresed_word_go, hne, ih (i + 1) (by omega)]

/-- If the stressed index lies at or beyond the end of the remaining
characters, the loop copies them all verbatim. -/
theorem csw_go_skip (st idx : Nat) :
    ∀ (w : List Char) (i : Nat), i + w.length ≤ idx →
      create_stresed_word_go st idx i w = some w := by
  intro w
  induction w with
  | nil => intro i _; rfl
  | cons c rest ih =>
    intro i h
    have hne : i ≠ idx := by simp at h; omega
    simp [create_stresed_word_go, hne, ih (i + 1) (by simp at h ⊢; omega)]

theorem csw_oob (word : List Char) (st idx : Nat) (h : word.length ≤ idx) :
    create_stresed_word word st idx = some word :=
  csw_go_skip st idx word 0 (by omega)

/-- Splitting the word at the stressed position: the loop keeps the prefix
and suffix and substitutes the accented form of the middle character. -/
theorem csw_go_split (st : Nat) :
    ∀ (pre : List Char) (c : Char) (post : List Char) (i : Nat),
      create_stresed_word_go st (i + pre.length) i (pre ++ c :: post) =
        (make_stressed c st).map fun s => pre ++ s ++ post := by
  intro pre
  induction pre with
  | nil =>
    intro c post i
    simp only [List.length_nil, Nat.add_zero, List.nil_append]
    simp [create_stresed_word_go, csw_go_past st i post (i + 1) (by omega)]
    cases make_stressed c st <;> simp
  | cons p pre ih =>
    intro c post i
    have hne : i ≠ i + (p :: pre).length := by simp
    have harith : i + (p :: pre).length = (i + 1) + pre.length := by
      simp [List.length_cons]; omega
    rw [harith]
    have hne' : i ≠ (i + 1) + pre.length := by omega
    simp only [List.cons_append, create_stresed_word_go, if_neg hne', List.append_eq,
      ih c post (i + 1)]
    cases make_stressed c st <;> simp

theorem csw_split (st : Nat) (pre : List Char) (c : Char) (post : List Char) :
    create_stresed_word (pre ++ c :: post) st pre.length =
      (make_stressed c st).map fun s => pre ++ s ++ post := by
  have := csw_go_split st pre c post 0
  simpa [create_stresed_word] using this

theorem casing_chars_iff :
    ∀ (xs ys : List Char), casing_chars xs ys = true ↔ xs.map char_to_lower = ys := by
  intro xs
  induction xs with
  | nil => intro ys; cases ys <;> simp [casing_chars]
  | cons c cs ih =>
    intro ys
    cases ys with
    | nil => simp [casing_chars]
    | cons d ds => simp [casing_chars, ih]

theorem is_casing_variant_iff (s t : String) :
    is_casing_variant s t = true ↔ to_lowercase s = t := by
  cases t with
  | mk td =>
    simp [is_casing_variant, to_lowercase, casing_chars_iff, String.ext_iff]

theorem lookupS_eq_none (l : List (String × String)) (s : String)
    (h : ∀ kv ∈ l, s ≠ kv.1) : lookupS l s = none := by
  induction l with
  | nil => rfl
  | cons kv rest ih =>
    obtain ⟨k, v⟩ := kv
    have hk : s ≠ k := h (k, v) (by simp)
    simp only [lookupS, if_neg hk]
    exact ih fun kv hkv => h kv (by simp [hkv])

/-- The loop returns the rendering of a matching option when nothing
before it matches. -/
theorem loop_first_match (word : List Char) (target_case : String) :
    ∀ (pre : List StressOption) (o : StressOption) (post : List StressOption),
      (∀ p ∈ pre, p.grammatical_case ≠ target_case) →
      o.grammatical_case = target_case →
      get_accentuation_loop word target_case (pre ++ o :: post) = render_option word o := by
  intro pre
  induction pre with
  | nil =>
    intro o post _ ho
    simp [get_accentuation_loop, ho]
  | cons p pre ih =>
    intro o post hpre ho
    have hp : p.grammatical_case ≠ target_case := hpre p (by simp)
    simp only [List.cons_append, get_accentuation_loop, if_neg hp]
    exact ih o post (fun q hq => hpre q (by simp [hq])) ho

/-- The loop falls through to the `Err` when nothing matches. -/
theorem loop_no_match (word : List Char) (target_case : String) :
    ∀ opts : List StressOption,
      (∀ p ∈ opts, p.grammatical_case ≠ target_case) →
      get_accentuation_loop word target_case opts =
        RenderOutcome.error "Unable to find correct case" := by
  intro opts
  induction opts with
  | nil => intro _; rfl
  | cons o rest ih =>
    intro h
    have ho : o.grammatical_case ≠ target_case := h o (by simp)
    simp only [get_accentuation_loop, if_neg ho]
    exact ih fun q hq => h q (by simp [hq])

theorem main_make_stressed_eq (c : Char) :
    ∀ st : Nat, Main.make_stressed c st = make_stressed c st
  | 0 => rfl
  | 1 => rfl
  | 2 => rfl
  | _ + 3 => rfl

theorem main_go_eq (st idx : Nat) :
    ∀ (w : List Char) (i : Nat),
      Main.create_stresed_word_go st idx i w = create_stresed_word_go st idx i w := by
  intro w
  induction w with
  | nil => intro i; rfl
  | cons c rest ih =>
    intro i
    by_cases h : i = idx <;>
      simp [Main.create_stresed_word_go, create_stresed_word_go, h,
        main_make_stressed_eq, ih]

/-! ### Claims -/

/-- Claim C1, counterexample: the claim says `create_stresed_word` fails
with `IndexOutOfRange` for an index ≥ the word's code-point length, but at
word `"ab"` with index 2 it succeeds and returns the input unchanged — the
function has no out-of-range error path at all. -/
theorem create_stresed_word_oob_counterexample :
    create_stresed_word ['a', 'b'] 0 2 = some ['a', 'b'] ∧
    (create_stresed_word ['a', 'b'] 0 2).isSome = true := by
  decide

/-- Claim C1, amended: for every word, stress type and index greater than
or equal to the word's code-point length, `create_stresed_word` does not
fail — it returns a result (the input word unchanged). -/
theorem create_stresed_word_oob_succeeds (word : List Char) (st idx : Nat)
    (h : word.length ≤ idx) : (create_stresed_word word st idx).isSome = true := by
  rw [csw_oob word st idx h]
  rfl

/-- Witness for the amended claim C1 at word `"ab"`, index 5. -/
theorem create_stresed_word_oob_succeeds_witness :
    (create_stresed_word ['a', 'b'] 1 5).isSome = true :=
  create_stresed_word_oob_succeeds ['a', 'b'] 1 5 (by decide)

/-- Claim C2, counterexample: the claim says a code point absent from the
selected table yields a checked `MissingMapping` error returned to the
caller, but `make_stressed` calls `.unwrap()` on the failed lookup: at
`('x', stress type 0)` it panics (modelled as `none`), and the selection
loop propagates the panic — not an error value — to the caller. -/
theorem make_stressed_missing_counterexample :
    make_stressed 'x' 0 = none ∧
    get_accentuation_loop ['x'] "Vardininkas" [⟨"Vardininkas", 0, 0⟩] =
      RenderOutcome.panicked := by
  decide

/-- Claim C2, amended: for every stress type in {0,1,2} and every code
point absent from that stress type's table, `make_stressed` aborts with an
unchecked panic (`unwrap` on `None`), rather than returning a checked
`MissingMapping` error to the caller. -/
theorem make_stressed_missing_panics (c : Char) (st : Nat) (hst : st < 3)
    (hc : c ∉ (table_for st).map Prod.fst) : make_stressed c st = none := by
  rw [make_stressed_eq_lookup c st hst]
  exact (lookup_eq_none_iff _ _).mpr hc

/-- Witness for the amended claim C2 at `('z', stress type 2)`. -/
theorem make_stressed_missing_panics_witness : make_stressed 'z' 2 = none :=
  make_stressed_missing_panics 'z' 2 (by decide) (by decide)

/-- Claim C3: the loop inside `get_accentuation` returns the result for
the first record in input order whose `grammatical_case` equals the target
case under exact, case-sensitive string equality (later duplicates are
ignored, since any decomposition with a non-matching prefix determines the
result); when no record matches it fails with the `CaseNotFound` error
`"Unable to find correct case"`. -/
theorem selector_first_match_spec (word : List Char) (target_case : String)
    (opts : List StressOption) :
    (∀ pre o post, opts = pre ++ o :: post →
        (∀ p ∈ pre, p.grammatical_case ≠ target_case) →
        o.grammatical_case = target_case →
        get_accentuation_loop word target_case opts = render_option word o) ∧
    ((∀ p ∈ opts, p.grammatical_case ≠ target_case) →
        get_accentuation_loop word target_case opts =
          RenderOutcome.error "Unable to find correct case") := by
  constructor
  · intro pre o post heq hpre ho
    subst heq
    exact loop_first_match word target_case pre o post hpre ho
  · intro h
    exact loop_no_match word target_case opts h

/-- Witness for claim C3: a list with a non-matching head and a later
duplicate of the matching case; the first match (stress type 0) decides. -/
theorem selector_first_match_spec_witness :
    get_accentuation_loop ['a'] "X" [⟨"Y", 0, 0⟩, ⟨"X", 0, 0⟩, ⟨"X", 2, 1⟩] =
      RenderOutcome.ok [Char.ofNat 0xE0] := by
  have h := (selector_first_match_spec ['a'] "X"
      [⟨"Y", 0, 0⟩, ⟨"X", 0, 0⟩, ⟨"X", 2, 1⟩]).1
    [⟨"Y", 0, 0⟩] ⟨"X", 0, 0⟩ [⟨"X", 2, 1⟩] rfl (by decide) rfl
  rw [h]
  decide

/-- Claim C4: for each of the seven canonical cases, `get_case_name`
applied to any letter-casing variant of the English name returns the same
canonical Lithuanian label, and for every other input it returns the
sentinel `"UNKNOWN"`; being a total function of the embedding, it never
fails on any input. -/
theorem get_case_name_spec (s : String) :
    (∀ en lith, (en, lith) ∈ CASE_NAMES → is_casing_variant s en = true →
        get_case_name s = lith) ∧
    ((∀ en lith, (en, lith) ∈ CASE_NAMES → is_casing_variant s en = false) →
        get_case_name s = "UNKNOWN") := by
  constructor
  · intro en lith hmem hvar
    have hlow : to_lowercase s = en := (is_casing_variant_iff s en).mp hvar
    simp only [get_case_name, hlow]
    simp only [CASE_NAMES, List.mem_cons, List.not_mem_nil, or_false,
      Prod.mk.injEq] at hmem
    rcases hmem with ⟨rfl, rfl⟩ | ⟨rfl, rfl⟩ | ⟨rfl, rfl⟩ | ⟨rfl, rfl⟩ |
      ⟨rfl, rfl⟩ | ⟨rfl, rfl⟩ | ⟨rfl, rfl⟩ <;> decide
  · intro hall
    have hnone : lookupS CASE_NAMES (to_lowercase s) = none := by
      apply lookupS_eq_none
      intro kv hkv heq
      have hv := hall kv.1 kv.2 (by simpa using hkv)
      have htrue := (is_casing_variant_iff s kv.1).mpr heq
      rw [hv] at htrue
      exact Bool.noConfusion htrue
    simp [get_case_name, hnone]

/-- Witness for claim C4 at the all-caps variant of `"instrumental"`. -/
theorem get_case_name_spec_witness : get_case_name "INSTRUMENTAL" = "Įnagininkas" :=
  (get_case_name_spec "INSTRUMENTAL").1 "instrumental" "Įnagininkas"
    (by decide) (by decide)

/-- Claim C5 (frame property): whenever rendering succeeds, the output is
the untouched prefix, then the substituted form of the single code point
at the stressed index (possibly several code points), then the untouched
suffix; and for an index at or beyond the end, the output is the input
unchanged.  Every valid index `idx` of a word `w` decomposes `w` uniquely
as `pre ++ c :: post` with `pre.length = idx`, so the two conjuncts cover
all successful renderings. -/
theorem create_stresed_word_frame :
    (∀ (st : Nat) (pre : List Char) (c : Char) (post out : List Char),
        create_stresed_word (pre ++ c :: post) st pre.length = some out →
        ∃ repl, make_stressed c st = some repl ∧ out = pre ++ repl ++ post) ∧
    (∀ (word : List Char) (st idx : Nat) (out : List Char), word.length ≤ idx →
        create_stresed_word word st idx = some out → out = word) := by
  constructor
  · intro st pre c post out h
    rw [csw_split st pre c post] at h
    cases hms : make_stressed c st with
    | none => rw [hms] at h; simp at h
    | some repl =>
      rw [hms] at h
      simp only [Option.map_some'] at h
      exact ⟨repl, rfl, (Option.some.injEq _ _ ▸ h).symm⟩
  · intro word st idx out hle h
    rw [csw_oob word st idx hle] at h
    injection h with h'
    exact h'.symm

/-- Witness for claim C5: rendering `"gera"` with stress type 0 at
index 3 replaces exactly the final `a`. -/
theorem create_stresed_word_frame_witness :
    ∃ repl, make_stressed 'a' 0 = some repl ∧
      ['g', 'e', 'r', Char.ofNat 0xE0] = ['g', 'e', 'r'] ++ repl ++ [] :=
  create_stresed_word_frame.1 0 ['g', 'e', 'r'] 'a' [] ['g', 'e', 'r', Char.ofNat 0xE0]
    (by decide)

/-- Claim C6: for a stress type in {0,1,2} and a valid index whose code
point is a key of that stress type's table, neither `make_stressed` nor
`create_stresed_word` aborts (no `MissingMapping` panic). -/
theorem render_table_key_no_missing_mapping (word : List Char) (st idx : Nat)
    (hst : st < 3) (hlt : idx < word.length)
    (hkey : word.get ⟨idx, hlt⟩ ∈ (table_for st).map Prod.fst) :
    (make_stressed (word.get ⟨idx, hlt⟩) st).isSome = true ∧
    (create_stresed_word word st idx).isSome = true := by
  have hms : (make_stressed (word.get ⟨idx, hlt⟩) st).isSome = true := by
    rw [make_stressed_eq_lookup _ _ hst]
    exact (lookup_isSome_iff _ _).mpr hkey
  refine ⟨hms, ?_⟩
  obtain ⟨repl, hrepl⟩ := Option.isSome_iff_exists.mp hms
  have hdecomp : word = word.take idx ++ word.get ⟨idx, hlt⟩ :: word.drop (idx + 1) := by
    conv_lhs => rw [← List.take_append_drop idx word]
    congr 1
    rw [List.drop_eq_getElem_cons hlt]
    simp [List.get_eq_getElem]
  have hlen : (word.take idx).length = idx := by
    rw [List.length_take]
    omega
  have hsplit := csw_split st (word.take idx) (word.get ⟨idx, hlt⟩) (word.drop (idx + 1))
  rw [hlen] at hsplit
  rw [hdecomp, hsplit, hrepl]
  rfl

/-- Witness for claim C6: `"gera"`, stress type 2, index 1 (`e` is a key
of `STRESS_TYPE_2`). -/
theorem render_table_key_no_missing_mapping_witness :
    (make_stressed (['g', 'e', 'r', 'a'].get ⟨1, by decide⟩) 2).isSome = true ∧
    (create_stresed_word ['g', 'e', 'r', 'a'] 2 1).isSome = true :=
  render_table_key_no_missing_mapping ['g', 'e', 'r', 'a'] 2 1
    (by decide) (by decide) (by decide)

/-- Claim C7: exact membership of the three diacritic tables.  Class 0
maps exactly `a, i, u` to the grave forms U+00E0, U+00EC, `u`+U+0300.
Class 1 maps exactly `ū, e, ė, į, ą, ų` to acute forms (every value ends
in U+0301 COMBINING ACUTE), with `e` mapped to `ę`+acute and `ė` mapped to
`ė`+acute.  Class 2 maps exactly `ą, e, ė, ę, į, l, m, o, r, ų, ū, y` to
tilde-combined forms (every value either ends in U+0303 COMBINING TILDE or
is one of the precomposed tilde characters U+1EBD, U+00F5, U+1EF9). -/
theorem diacritic_tables_membership :
    STRESS_TYPE_0.map Prod.fst = ['a', 'i', 'u'] ∧
    lookup STRESS_TYPE_0 'a' = some [Char.ofNat 0xE0] ∧
    lookup STRESS_TYPE_0 'i' = some [Char.ofNat 0xEC] ∧
    lookup STRESS_TYPE_0 'u' = some ['u', Char.ofNat 0x300] ∧
    STRESS_TYPE_1.map Prod.fst =
      [Char.ofNat 0x16B, 'e', Char.ofNat 0x117, Char.ofNat 0x12F,
        Char.ofNat 0x105, Char.ofNat 0x173] ∧
    (∀ kv ∈ STRESS_TYPE_1, kv.2.getLast? = some (Char.ofNat 0x301)) ∧
    lookup STRESS_TYPE_1 'e' = some [Char.ofNat 0x119, Char.ofNat 0x301] ∧
    lookup STRESS_TYPE_1 (Char.ofNat 0x117) =
      some [Char.ofNat 0x117, Char.ofNat 0x301] ∧
    STRESS_TYPE_2.map Prod.fst =
      [Char.ofNat 0x105, 'e', Char.ofNat 0x117, Char.ofNat 0x119, Char.ofNat 0x12F,
        'l', 'm', 'o', 'r', Char.ofNat 0x173, Char.ofNat 0x16B, 'y'] ∧
    (∀ kv ∈ STRESS_TYPE_2, kv.2.getLast? = some (Char.ofNat 0x303) ∨
        kv.2 ∈ [[Char.ofNat 0x1EBD], [Char.ofNat 0xF5], [Char.ofNat 0x1EF9]]) := by
  decide

/-- Claim C8: indices count Unicode code points, not bytes.  The word
`"žodį"` has four code points (U+017E, `o`, `d`, U+012F) although `ž`
occupies two bytes in UTF-8; index 1 designates its second code point
`o`, and rendering with stress class 2 at index 1 yields `"žõdį"`
(U+017E, U+00F5, `d`, U+012F). -/
theorem zodi_codepoint_indexing :
    zodis = [Char.ofNat 0x17E, 'o', 'd', Char.ofNat 0x12F] ∧
    zodis.get ⟨1, by decide⟩ = 'o' ∧
    create_stresed_word zodis 2 1 = some (String.data "žõdį") ∧
    String.data "žõdį" = [Char.ofNat 0x17E, Char.ofNat 0xF5, 'd', Char.ofNat 0x12F] := by
  decide

/-- Claim C9: for every word, every stress type (any `u8` value, even one
outside {0,1,2} for which a table lookup would panic), and every index at
or beyond the word's code-point length, `create_stresed_word` returns the
input word unchanged, with no error and no lookup into any diacritic
table (the result is independent of the stress type). -/
theorem create_stresed_word_oob_identity (word : List Char) (st idx : Nat)
    (h : word.length ≤ idx) : create_stresed_word word st idx = some word :=
  csw_oob word st idx h

/-- Witness for claim C9 at word `"gera"`, stress type 7, index 9. -/
theorem create_stresed_word_oob_identity_witness :
    create_stresed_word ['g', 'e', 'r', 'a'] 7 9 = some ['g', 'e', 'r', 'a'] :=
  create_stresed_word_oob_identity ['g', 'e', 'r', 'a'] 7 9 (by decide)

/-- Claim C10: the renderer duplicated in `src/main.rs` is extensionally
equal to the one in `src/lib.rs`: `make_stressed`, `create_stresed_word`
and the three diacritic tables agree on all inputs. -/
theorem main_renderer_equals_lib :
    (∀ (c : Char) (st : Nat), Main.make_stressed c st = make_stressed c st) ∧
    (∀ (w : List Char) (st idx : Nat),
        Main.create_stresed_word w st idx = create_stresed_word w st idx) ∧
    Main.STRESS_TYPE_0 = STRESS_TYPE_0 ∧
    Main.STRESS_TYPE_1 = STRESS_TYPE_1 ∧
    Main.STRESS_TYPE_2 = STRESS_TYPE_2 := by
  refine ⟨fun c st => main_make_stressed_eq c st, fun w st idx => ?_, rfl, rfl, rfl⟩
  exact main_go_eq st idx w 0

end LithuanianPhonology
